import Mathlib

/-!
Shallow embedding of `domain-server/src/DomainContentBackupManager.cpp`
(the periodic backup scheduler / archive-retention engine).

Modelling conventions:
* A directory is a list of the file names it contains (`List String`);
  `QDir` globs and `QDirIterator` name filters become list filters.
* `QDateTime` values parsed from archive names are `DateTime` records;
  a default-constructed (invalid) `QDateTime` is `Option.none`, which
  compares below every valid datetime (Qt orders invalid before valid).
* Backup handlers are opaque: each handler is identified by a `String`
  and every invocation against a writer is recorded as an `Event`.
* Machine integers (`int`, `int64_t`, `qint64`) are modelled as `Int`;
  none of the arithmetic here approaches overflow in the C++ code.
-/

namespace DomainBackup

/-- A timestamp parsed from the fixed `yyyy-MM-dd_HH-mm-ss` format
(`DATETIME_FORMAT` in the C++ source). -/
structure DateTime where
  year : Nat
  month : Nat
  day : Nat
  hour : Nat
  minute : Nat
  second : Nat
deriving DecidableEq, Repr

/-- Gregorian leap-year rule, as used by `QDate`. -/
def isLeapYear (y : Nat) : Bool :=
  (y % 4 == 0 && y % 100 != 0) || (y % 400 == 0)

/-- Number of days in a month, as used by `QDate::isValid`. -/
def daysInMonth (y m : Nat) : Nat :=
  if m = 2 then (if isLeapYear y then 29 else 28)
  else if m = 4 ∨ m = 6 ∨ m = 9 ∨ m = 11 then 30
  else 31

/-- Validity of a parsed datetime (`QDateTime::isValid` after
`QDateTime::fromString` with format `yyyy-MM-dd_HH-mm-ss`): the year field
has four digits with year 0 invalid, the month/day must form a real
calendar date, and the time fields must be in range. -/
def validDateTime (dt : DateTime) : Bool :=
  dt.year ≠ 0 && 1 ≤ dt.month && dt.month ≤ 12 &&
  1 ≤ dt.day && dt.day ≤ daysInMonth dt.year dt.month &&
  dt.hour < 24 && dt.minute < 60 && dt.second < 60

/-- Linearisation of a datetime used to compare parsed timestamps.  The
radices (13, 32, 24, 60, 60) strictly exceed the ranges of valid fields,
so on valid datetimes `key` ordering is exactly chronological ordering,
which is what `QDateTime::operator>` compares. -/
def DateTime.key (dt : DateTime) : Nat :=
  dt.second + 60 * (dt.minute + 60 * (dt.hour + 24 * (dt.day + 32 * (dt.month + 13 * dt.year))))

/-- `createdAt > bestBackupFileTime` where the accumulator starts out as a
default (invalid) `QDateTime`: every valid datetime compares greater than
the invalid one. -/
def afterOpt (t : DateTime) (o : Option DateTime) : Bool :=
  match o with
  | none => true
  | some b => b.key < t.key

/-- Whether `fname` matches the wildcard filter `format + "*.zip"`
(the `QDirIterator` / `entryInfoList` name filter): `fname` decomposes as
`format ++ mid ++ ".zip"` for some (possibly empty) `mid`. -/
def matchesGlob (format fname : String) : Bool :=
  decide (format.data.length + 4 ≤ fname.data.length) &&
  fname.data.take format.data.length == format.data &&
  fname.data.drop (fname.data.length - 4) == ".zip".data

/-- The anchored timestamp grammar `DATETIME_FORMAT_RE`
(`\d{4}-\d{2}-\d{2}_\d{2}-\d{2}-\d{2}`), matched against exactly 19
characters. -/
def matchesTimestampRE (s : List Char) : Bool :=
  match s with
  | [y1, y2, y3, y4, c1, m1, m2, c2, d1, d2, c3, h1, h2, c4, n1, n2, c5, s1, s2] =>
    y1.isDigit && y2.isDigit && y3.isDigit && y4.isDigit &&
    m1.isDigit && m2.isDigit && d1.isDigit && d2.isDigit &&
    h1.isDigit && h2.isDigit && n1.isDigit && n2.isDigit &&
    s1.isDigit && s2.isDigit &&
    c1 == '-' && c2 == '-' && c3 == '_' && c4 == '-' && c5 == '-'
  | _ => false

/-- `formatRE.exactMatch(fileName)` with
`formatRE = QRegExp::escape(format) + "(" + DATETIME_FORMAT_RE + ")" + "\\.zip"`,
returning the captured group `formatRE.cap(1)` on success.  The whole file
name must be `format ++ ts ++ ".zip"` with `ts` a 19-character timestamp. -/
def extractTimestamp (format fname : String) : Option String :=
  if fname.data.take format.data.length = format.data then
    let rest := fname.data.drop format.data.length
    if rest.length = 23 ∧ rest.drop 19 = ".zip".data ∧ matchesTimestampRE (rest.take 19) = true then
      some ⟨rest.take 19⟩
    else none
  else none

/-- Numeric value of a two-digit field. -/
def d2 (a b : Char) : Nat := (a.toNat - 48) * 10 + (b.toNat - 48)

/-- Numeric value of a four-digit field. -/
def d4 (a b c d : Char) : Nat :=
  ((a.toNat - 48) * 10 + (b.toNat - 48)) * 100 + (c.toNat - 48) * 10 + (d.toNat - 48)

/-- `QDateTime::fromString(datetime, DATETIME_FORMAT)` followed by the
`isValid()` check: parse the six fixed-width fields, returning `none` when
the shape is wrong or the parsed instant is not a valid calendar datetime. -/
def parseDateTime (ts : String) : Option DateTime :=
  match ts.data with
  | [y1, y2, y3, y4, '-', m1, m2, '-', dd1, dd2, '_', h1, h2, '-', n1, n2, '-', s1, s2] =>
    let dt : DateTime :=
      ⟨d4 y1 y2 y3 y4, d2 m1 m2, d2 dd1 dd2, d2 h1 h2, d2 n1 n2, d2 s1 s2⟩
    if validDateTime dt then some dt else none
  | _ => none

/-- The timestamp a directory entry contributes to the scan: the capture of
the anchored pattern, parsed and validity-checked.  `none` when the entry
fails the pattern or the parse — exactly the entries the scanner skips. -/
def parsedOf (format fname : String) : Option DateTime :=
  match extractTimestamp format fname with
  | none => none
  | some ts => parseDateTime ts

/-- Loop state of `getMostRecentBackup`: `bestBackupFound`,
`bestBackupFile` and `bestBackupFileTime`. -/
structure ScanResult where
  found : Bool
  fileName : String
  time : Option DateTime
deriving DecidableEq, Repr

/-- One iteration of the `QDirIterator` loop in `getMostRecentBackup`:
skip entries that fail the anchored pattern or whose timestamp is invalid,
otherwise keep the entry iff its timestamp is strictly greater than the
best seen so far (`createdAt > bestBackupFileTime`).  The recorded file is
`dirIterator.filePath()`, i.e. the directory path plus the file name. -/
def scanStep (dirPath format : String) (st : ScanResult) (fname : String) : ScanResult :=
  match extractTimestamp format fname with
  | none => st
  | some ts =>
    match parseDateTime ts with
    | none => st
    | some createdAt =>
      if afterOpt createdAt st.time then
        { found := true, fileName := dirPath ++ "/" ++ fname, time := some createdAt }
      else st

/-- `DomainContentBackupManager::getMostRecentBackup`: iterate over the
directory entries that pass the `format + "*.zip"` name filter, track the
best (latest) parsed timestamp, and assign the two out-parameters only
when some backup was found.  Returns the found flag together with the
final values of the out-parameters. -/
def getMostRecentBackup (dirPath format : String) (entries : List String)
    (outName : String) (outTime : Option DateTime) : Bool × String × Option DateTime :=
  let res := (entries.filter (fun f => matchesGlob format f)).foldl
    (scanStep dirPath format) ⟨false, "", none⟩
  if res.found then (true, res.fileName, res.time) else (false, outName, outTime)

/-- Days since 1970-01-01 of a proleptic-Gregorian civil date
(the standard days-from-civil algorithm, with floor division). -/
def daysFromCivil (y m d : Int) : Int :=
  let y2 := if m ≤ 2 then y - 1 else y
  let era := Int.fdiv y2 400
  let yoe := y2 - era * 400
  let doy := Int.fdiv (153 * (m + (if 2 < m then -3 else 9)) + 2) 5 + d - 1
  let doe := yoe * 365 + Int.fdiv yoe 4 - Int.fdiv yoe 100 + doy
  era * 146097 + doe - 719468

/-- `QDateTime::toSecsSinceEpoch` of a parsed timestamp (modelled in UTC). -/
def toSecsSinceEpoch (dt : DateTime) : Int :=
  daysFromCivil dt.year dt.month dt.day * 86400 +
    dt.hour * 3600 + dt.minute * 60 + dt.second

/-- `DomainContentBackupManager::getMostRecentBackupTimeInSecs`: epoch
seconds of the most recent backup for `format`, or 0 when none is found. -/
def getMostRecentBackupTimeInSecs (dirPath format : String) (entries : List String) : Int :=
  let res := getMostRecentBackup dirPath format entries "" none
  if res.1 then
    match res.2.2 with
    | some t => toSecsSinceEpoch t
    | none => 0
  else 0

/-- The `BackupRule` struct, with the same field order as the C++
aggregate initialiser `{ name, interval, format, count, 0 }`. -/
structure BackupRule where
  name : String
  intervalSeconds : Int
  extensionFormat : String
  maxBackupVersions : Int
  lastBackupSeconds : Int
deriving DecidableEq, Repr

/-- The `QuaZip` writer handed to the backup handlers: the archive path
passed to the `QuaZip` constructor plus whether `open(QuaZip::mdAdd)`
succeeded. -/
structure Writer where
  zipName : String
  openOk : Bool
deriving DecidableEq, Repr

/-- Observable actions of one backup cycle, in program order. -/
inductive Event where
  | openFailed (zipName : String)
  | createBackupInvoked (handler : String) (w : Writer)
  | removedOldBackup (file : String)
  | lockCreated
  | lockRemoved
deriving DecidableEq, Repr

/-- `QDir::entryInfoList(..., QDir::Name)`: the matching entries sorted
ascending by name. -/
def sortByName (files : List String) : List String :=
  List.insertionSort (fun a b => a ≤ b) files

/-- `DomainContentBackupManager::removeOldBackupVersions`: when
`maxBackupVersions > 0`, list the files matching `extensionFormat + "*.zip"`
sorted by name and delete the first `length - maxBackupVersions` of them
(a non-positive count deletes nothing).  Returns the directory after the
deletions together with the list of deleted files.  The `backupDir.exists()`
guard is implicit (the directory is the model), and `QFile::remove` is
modelled as succeeding. -/
def removeOldBackupVersions (rule : BackupRule) (dir : List String) : List String × List String :=
  if 0 < rule.maxBackupVersions then
    let matchingFiles := sortByName (dir.filter (fun f => matchesGlob rule.extensionFormat f))
    let backupsToDelete : Int := (matchingFiles.length : Int) - rule.maxBackupVersions
    let deleted := matchingFiles.take backupsToDelete.toNat
    (dir.filter (fun f => decide (f ∉ deleted)), deleted)
  else (dir, [])

/-- Creating a file in a directory: a no-op when the name already exists
(the existing file is truncated), otherwise the name is appended. -/
def insertFile (f : String) (dir : List String) : List String :=
  if f ∈ dir then dir else dir ++ [f]

/-- Result of one backup cycle: the rule list after its
`lastBackupSeconds` updates, the directory contents, the archive file each
rule actually created (`none` when the rule did not fire or the open
failed), and the observable events in order. -/
structure CycleResult where
  rules : List BackupRule
  dir : List String
  created : List (Option String)
  events : List Event
deriving DecidableEq, Repr

/-- `DomainContentBackupManager::backup`: for each rule in order, fire iff
`nowSeconds - lastBackupSeconds > intervalSeconds`.  A firing rule builds
`"backup-" ++ extensionFormat ++ timestamp ++ ".zip"` from a fresh clock
reading, opens the archive (logging on failure but not stopping), invokes
every handler's `createBackup` against the writer regardless of the open
result, sets `lastBackupSeconds := nowSeconds`, and runs
`removeOldBackupVersions`.  `clock` supplies the successive
`QDateTime::currentDateTime().toString(DATETIME_FORMAT)` readings, one per
firing rule; `openOk` tells whether opening a given archive name succeeds. -/
def backup (dirPath : String) (handlers : List String) (openOk : String → Bool)
    (nowSeconds : Int) (clock : List String) (rules : List BackupRule)
    (dir : List String) : CycleResult :=
  match rules with
  | [] => ⟨[], dir, [], []⟩
  | rule :: rest =>
    if nowSeconds - rule.lastBackupSeconds > rule.intervalSeconds then
      let timestamp := clock.headD ""
      let fileName := "backup-" ++ rule.extensionFormat ++ timestamp ++ ".zip"
      let w : Writer := ⟨dirPath ++ "/" ++ fileName, openOk fileName⟩
      let dir1 := if w.openOk then insertFile fileName dir else dir
      let openEvs := if w.openOk then [] else [Event.openFailed w.zipName]
      let rule2 := { rule with lastBackupSeconds := nowSeconds }
      let rolled := removeOldBackupVersions rule2 dir1
      let restRes := backup dirPath handlers openOk nowSeconds clock.tail rest rolled.1
      ⟨rule2 :: restRes.rules, restRes.dir,
        (if w.openOk then some fileName else none) :: restRes.created,
        openEvs ++ handlers.map (fun h => Event.createBackupInvoked h w) ++
          rolled.2.map Event.removedOldBackup ++ restRes.events⟩
    else
      let restRes := backup dirPath handlers openOk nowSeconds clock rest dir
      ⟨rule :: restRes.rules, restRes.dir, none :: restRes.created, restRes.events⟩

/-- `DomainContentBackupManager::persist`: create the crash-marker file
`running.lock`; when that succeeds, run `backup()` and afterwards remove
the marker.  When the marker cannot be created the whole cycle is skipped
and nothing at all happens (the C++ body has no else branch). -/
def persist (dirPath : String) (handlers : List String) (openOk : String → Bool)
    (lockOk : Bool) (nowSeconds : Int) (clock : List String)
    (rules : List BackupRule) (dir : List String) : CycleResult :=
  if lockOk then
    let res := backup dirPath handlers openOk nowSeconds clock rules
      (insertFile "running.lock" dir)
    ⟨res.rules, res.dir.filter (fun f => decide (f ≠ "running.lock")), res.created,
      Event.lockCreated :: (res.events ++ [Event.lockRemoved])⟩
  else ⟨rules, dir, [], []⟩

/-- One entry of the `settings["backups"]` array, already reduced to the
fields `parseSettings` reads (the dual numeric/string acceptance of
`backupInterval` and `maxBackupVersions` happens before this model). -/
structure RuleConfig where
  nameCfg : String
  formatCfg : String
  backupInterval : Int
  maxBackupVersions : Int
deriving DecidableEq, Repr

/-- `QString::replace(" ", "_")`: every space becomes an underscore (the
pattern is a single character, so occurrence replacement is a character
map). -/
def replaceSpaces (s : String) : String :=
  ⟨s.data.map (fun c => if c = ' ' then '_' else c)⟩

/-- `QString::toLower`, modelled character-wise. -/
def strToLower (s : String) : String :=
  ⟨s.data.map Char.toLower⟩

/-- The per-rule body of `DomainContentBackupManager::parseSettings`:
`name.replace(" ", "_")` mutates `name` in place, `format` is then
recomputed from that mutated name (discarding the configured `format`
field), the rule is aggregate-initialised from the mutated name, and
`lastBackupSeconds` is seeded from the most recent matching archive. -/
def parseRule (cfg : RuleConfig) (dirPath : String) (existing : List String) : BackupRule :=
  let name := replaceSpaces cfg.nameCfg
  let format := strToLower name ++ "-"
  let newRule : BackupRule := ⟨name, cfg.backupInterval, format, cfg.maxBackupVersions, 0⟩
  { newRule with lastBackupSeconds := getMostRecentBackupTimeInSecs dirPath format existing }

/-- `o` is at least as late as `t` (and in particular is a found time). -/
def dominates (o : Option DateTime) (t : DateTime) : Prop :=
  ∃ tm, o = some tm ∧ t.key ≤ tm.key

theorem map_eq_self_fixes {α : Type} (f : α → α) :
    ∀ (l : List α), l.map f = l → ∀ x ∈ l, f x = x := by
  intro l
  induction l with
  | nil => intro _ x hx; exact absurd hx (List.not_mem_nil x)
  | cons a t ih =>
    intro h x hx
    rw [List.map_cons, List.cons.injEq] at h
    rcases List.mem_cons.mp hx with rfl | hx2
    · exact h.1
    · exact ih h.2 x hx2

theorem scanStep_of_none {dirPath format : String} {st : ScanResult} {e : String}
    (h : parsedOf format e = none) : scanStep dirPath format st e = st := by
  unfold parsedOf at h
  unfold scanStep
  cases hext : extractTimestamp format e with
  | none => rfl
  | some ts =>
    rw [hext] at h
    dsimp only at h ⊢
    rw [h]

theorem scanStep_of_some {dirPath format : String} {st : ScanResult} {e : String} {t : DateTime}
    (h : parsedOf format e = some t) :
    (afterOpt t st.time = true ∧
      scanStep dirPath format st e = ⟨true, dirPath ++ "/" ++ e, some t⟩)
    ∨ (afterOpt t st.time = false ∧ scanStep dirPath format st e = st) := by
  unfold parsedOf at h
  unfold scanStep
  cases hext : extractTimestamp format e with
  | none => rw [hext] at h; cases h
  | some ts =>
    rw [hext] at h
    dsimp only at h ⊢
    rw [h]
    dsimp only
    cases afterOpt t st.time with
    | true => simp
    | false => simp

theorem scan_foldl_id (dirPath format : String) :
    ∀ (es : List String) (st : ScanResult),
      (∀ e ∈ es, parsedOf format e = none) →
      es.foldl (scanStep dirPath format) st = st := by
  intro es
  induction es with
  | nil => intro st _; rfl
  | cons e t ih =>
    intro st h
    rw [List.foldl_cons, scanStep_of_none (h e (List.mem_cons_self e t))]
    exact ih st (fun x hx => h x (List.mem_cons_of_mem e hx))

theorem scan_foldl_found_true (dirPath format : String) :
    ∀ (es : List String) (st : ScanResult), st.found = true →
      (es.foldl (scanStep dirPath format) st).found = true := by
  intro es
  induction es with
  | nil => intro st h; exact h
  | cons e t ih =>
    intro st h
    rw [List.foldl_cons]
    apply ih
    cases hpe : parsedOf format e with
    | none => rw [scanStep_of_none hpe]; exact h
    | some d =>
      rcases scanStep_of_some hpe with ⟨_, heq⟩ | ⟨_, heq⟩ <;> rw [heq]
      exact h

theorem scan_foldl_found_any (dirPath format : String) :
    ∀ (es : List String) (fn : String),
      (es.foldl (scanStep dirPath format) ⟨false, fn, none⟩).found
        = es.any (fun e => (parsedOf format e).isSome) := by
  intro es
  induction es with
  | nil => intro fn; rfl
  | cons e t ih =>
    intro fn
    rw [List.foldl_cons, List.any_cons]
    cases hpe : parsedOf format e with
    | none => rw [scanStep_of_none hpe, ih fn]; simp
    | some d =>
      rcases scanStep_of_some hpe with ⟨_, heq⟩ | ⟨haf, _⟩
      · rw [heq, scan_foldl_found_true dirPath format t _ rfl]; simp
      · simp [afterOpt] at haf

theorem afterOpt_false {t : DateTime} {o : Option DateTime} (h : afterOpt t o = false) :
    ∃ b, o = some b ∧ t.key ≤ b.key := by
  cases o with
  | none => cases h
  | some b =>
    refine ⟨b, rfl, ?_⟩
    unfold afterOpt at h
    exact Nat.le_of_not_lt (by simpa using h)

theorem dominates_mono {o : Option DateTime} {x t : DateTime}
    (h1 : t.key ≤ x.key) (h2 : dominates o x) : dominates o t :=
  let ⟨tm, ho, hle⟩ := h2
  ⟨tm, ho, le_trans h1 hle⟩

theorem scan_foldl_dom (dirPath format : String) :
    ∀ (es : List String) (st : ScanResult),
      (∀ t0, st.time = some t0 →
        dominates (es.foldl (scanStep dirPath format) st).time t0)
      ∧ (∀ e ∈ es, ∀ t, parsedOf format e = some t →
        dominates (es.foldl (scanStep dirPath format) st).time t) := by
  intro es
  induction es with
  | nil =>
    intro st
    exact ⟨fun t0 h => ⟨t0, h, le_refl _⟩, fun e he => absurd he (List.not_mem_nil e)⟩
  | cons e rest ih =>
    intro st
    rw [List.foldl_cons]
    cases hpe : parsedOf format e with
    | none =>
      rw [scanStep_of_none hpe]
      obtain ⟨ih1, ih2⟩ := ih st
      refine ⟨ih1, ?_⟩
      intro x hx tx hpx
      rcases List.mem_cons.mp hx with rfl | hx2
      · rw [hpe] at hpx; cases hpx
      · exact ih2 x hx2 tx hpx
    | some te =>
      rcases @scanStep_of_some dirPath format st e te hpe with ⟨haf, heq⟩ | ⟨haf, heq⟩
      · -- the entry becomes the new best
        rw [heq]
        obtain ⟨ih1, ih2⟩ := ih ⟨true, dirPath ++ "/" ++ e, some te⟩
        have hdomte : dominates
            (rest.foldl (scanStep dirPath format) ⟨true, dirPath ++ "/" ++ e, some te⟩).time te :=
          ih1 te rfl
        refine ⟨?_, ?_⟩
        · intro t0 ht0
          -- the old best was strictly earlier than te
          unfold afterOpt at haf
          rw [ht0] at haf
          exact dominates_mono (Nat.le_of_lt (by simpa using haf)) hdomte
        · intro x hx tx hpx
          rcases List.mem_cons.mp hx with rfl | hx2
          · rw [hpe] at hpx
            cases hpx
            exact hdomte
          · exact ih2 x hx2 tx hpx
      · -- the current best stays; it already dominates the entry
        rw [heq]
        obtain ⟨ih1, ih2⟩ := ih st
        obtain ⟨b, hb, hble⟩ := afterOpt_false haf
        refine ⟨ih1, ?_⟩
        intro x hx tx hpx
        rcases List.mem_cons.mp hx with rfl | hx2
        · rw [hpe] at hpx
          cases hpx
          exact dominates_mono hble (ih1 b hb)
        · exact ih2 x hx2 tx hpx

theorem scan_foldl_source (dirPath format : String) :
    ∀ (es : List String) (st : ScanResult),
      es.foldl (scanStep dirPath format) st = st
      ∨ ∃ e ∈ es, ∃ t, parsedOf format e = some t ∧
          es.foldl (scanStep dirPath format) st
            = ⟨true, dirPath ++ "/" ++ e, some t⟩ := by
  intro es
  induction es with
  | nil => intro st; exact Or.inl rfl
  | cons e rest ih =>
    intro st
    rw [List.foldl_cons]
    cases hpe : parsedOf format e with
    | none =>
      rw [scanStep_of_none hpe]
      rcases ih st with h | ⟨x, hx, t, hpx, heq⟩
      · exact Or.inl h
      · exact Or.inr ⟨x, List.mem_cons_of_mem e hx, t, hpx, heq⟩
    | some te =>
      rcases @scanStep_of_some dirPath format st e te hpe with ⟨_, heq⟩ | ⟨_, heq⟩
      · rw [heq]
        rcases ih ⟨true, dirPath ++ "/" ++ e, some te⟩ with h | ⟨x, hx, t, hpx, heq2⟩
        · exact Or.inr ⟨e, List.mem_cons_self e rest, te, hpe, h⟩
        · exact Or.inr ⟨x, List.mem_cons_of_mem e hx, t, hpx, heq2⟩
      · rw [heq]
        rcases ih st with h | ⟨x, hx, t, hpx, heq2⟩
        · exact Or.inl h
        · exact Or.inr ⟨x, List.mem_cons_of_mem e hx, t, hpx, heq2⟩

theorem parsedOf_glob {format e : String} {t : DateTime} (h : parsedOf format e = some t) :
    matchesGlob format e = true := by
  unfold parsedOf at h
  cases hext : extractTimestamp format e with
  | none => rw [hext] at h; cases h
  | some ts =>
    clear h
    unfold extractTimestamp at hext
    by_cases h1 : e.data.take format.data.length = format.data
    · rw [if_pos h1] at hext
      by_cases h2 : (e.data.drop format.data.length).length = 23 ∧
          (e.data.drop format.data.length).drop 19 = ".zip".data ∧
          matchesTimestampRE ((e.data.drop format.data.length).take 19) = true
      · obtain ⟨hlen, hsuf, _⟩ := h2
        have hmin : format.data.length ≤ e.data.length := by
          have := congrArg List.length h1
          rw [List.length_take] at this
          omega
        have hlen2 : e.data.length = format.data.length + 23 := by
          rw [List.length_drop] at hlen
          omega
        unfold matchesGlob
        rw [Bool.and_eq_true, Bool.and_eq_true]
        refine ⟨⟨by rw [decide_eq_true_eq]; omega, by simpa using h1⟩, ?_⟩
        rw [beq_iff_eq]
        have hdd : e.data.drop (e.data.length - 4)
            = (e.data.drop format.data.length).drop 19 := by
          rw [List.drop_drop]
          congr 1
          omega
        rw [hdd, hsuf]
      · rw [if_neg h2] at hext; cases hext
    · rw [if_neg h1] at hext; cases hext

theorem parseDateTime_valid {ts : String} {t : DateTime} (h : parseDateTime ts = some t) :
    validDateTime t = true := by
  unfold parseDateTime at h
  split at h
  · dsimp only at h
    split at h
    · cases h
      assumption
    · cases h
  · cases h

theorem parsedOf_valid {format e : String} {t : DateTime} (h : parsedOf format e = some t) :
    validDateTime t = true := by
  unfold parsedOf at h
  cases hext : extractTimestamp format e with
  | none => rw [hext] at h; cases h
  | some ts =>
    rw [hext] at h
    exact parseDateTime_valid h

theorem daysInMonth_le (y m : Nat) : daysInMonth y m ≤ 31 := by
  unfold daysInMonth
  split
  · split <;> omega
  · split <;> omega

theorem key_inj {a b : DateTime} (ha : validDateTime a = true) (hb : validDateTime b = true)
    (h : a.key = b.key) : a = b := by
  have hda := daysInMonth_le a.year a.month
  have hdb := daysInMonth_le b.year b.month
  unfold validDateTime at ha hb
  simp only [Bool.and_eq_true, decide_eq_true_eq] at ha hb
  obtain ⟨⟨⟨⟨⟨⟨⟨-, ham1⟩, ham2⟩, had1⟩, had2⟩, hah⟩, hami⟩, has⟩ := ha
  obtain ⟨⟨⟨⟨⟨⟨⟨-, hbm1⟩, hbm2⟩, hbd1⟩, hbd2⟩, hbh⟩, hbmi⟩, hbs⟩ := hb
  cases a
  cases b
  simp only [DateTime.mk.injEq]
  unfold DateTime.key at h
  simp only at *
  omega

/-- C7: for every set of directory entries with valid, distinct parseable
timestamps matching the given prefix pattern, the Scanner returns exactly
the entry whose parsed timestamp is maximal (the returned file is the
directory path plus that entry, the reported time is its parsed
timestamp, and every other parseable entry's timestamp is strictly
earlier); entries whose timestamp fails to parse are skipped without
aborting the scan; and the Scanner returns `false` when there are no
matching entries or all matching entries fail to parse
(`parsedOf format x = none` states that entry `x` fails the glob, the
anchored pattern, or the timestamp parse). -/
theorem C7_scanner_selection (dirPath format : String) (entries : List String)
    (outName : String) (outTime : Option DateTime) :
    ((∀ e1 ∈ entries, ∀ e2 ∈ entries, e1 ≠ e2 →
        parsedOf format e1 = none ∨ parsedOf format e1 ≠ parsedOf format e2) →
      (∃ e ∈ entries, (parsedOf format e).isSome = true) →
      ∃ e ∈ entries, ∃ t, parsedOf format e = some t ∧
        getMostRecentBackup dirPath format entries outName outTime
          = (true, dirPath ++ "/" ++ e, some t) ∧
        (∀ x ∈ entries, ∀ tx, parsedOf format x = some tx → tx.key ≤ t.key) ∧
        (∀ x ∈ entries, ∀ tx, parsedOf format x = some tx → x ≠ e → tx.key < t.key)) ∧
    ((∀ e ∈ entries, parsedOf format e = none) →
      (getMostRecentBackup dirPath format entries outName outTime).1 = false) := by
  constructor
  · intro hdist hex
    obtain ⟨e0, he0, hp0⟩ := hex
    have hmemf : ∀ x ∈ entries, ∀ tx, parsedOf format x = some tx →
        x ∈ entries.filter (fun f => matchesGlob format f) := by
      intro x hx tx hpx
      rw [List.mem_filter]
      exact ⟨hx, parsedOf_glob hpx⟩
    obtain ⟨t0, hp0'⟩ := Option.isSome_iff_exists.mp hp0
    have hfound : ((entries.filter (fun f => matchesGlob format f)).foldl
        (scanStep dirPath format) ⟨false, "", none⟩).found = true := by
      rw [scan_foldl_found_any, List.any_eq_true]
      exact ⟨e0, hmemf e0 he0 t0 hp0', by rw [hp0']; rfl⟩
    rcases scan_foldl_source dirPath format (entries.filter (fun f => matchesGlob format f))
        ⟨false, "", none⟩ with hid | ⟨e, he, t, hpe, heq⟩
    · rw [hid] at hfound
      cases hfound
    · have hmax : ∀ x ∈ entries, ∀ tx, parsedOf format x = some tx → tx.key ≤ t.key := by
        intro x hx tx hpx
        obtain ⟨tm, htm, hle⟩ := (scan_foldl_dom dirPath format
          (entries.filter (fun f => matchesGlob format f)) ⟨false, "", none⟩).2
          x (hmemf x hx tx hpx) tx hpx
        rw [heq] at htm
        have htm2 : some t = some tm := htm
        injection htm2 with htm3
        rw [← htm3] at hle
        exact hle
      refine ⟨e, List.mem_of_mem_filter he, t, hpe, ?_, hmax, ?_⟩
      · simp only [getMostRecentBackup]
        rw [heq]
        rfl
      · intro x hx tx hpx hne
        refine Nat.lt_of_le_of_ne (hmax x hx tx hpx) ?_
        intro hkeq
        have hteq : tx = t := key_inj (parsedOf_valid hpx) (parsedOf_valid hpe) hkeq
        subst hteq
        rcases hdist x hx e (List.mem_of_mem_filter he) hne with hn | hnep
        · rw [hpx] at hn; cases hn
        · exact hnep (by rw [hpx, hpe])
  · intro hnone
    simp only [getMostRecentBackup]
    rw [scan_foldl_id dirPath format _ _
      (fun x hx => hnone x (List.mem_of_mem_filter hx))]
    rfl

/-- C7 witness: a concrete directory with two parseable archives (January
and June) and one entry that fails to parse; the Scanner picks the June
archive. -/
theorem C7_scanner_selection_witness :
    ((∀ e1 ∈ ["daily-2024-01-01_00-00-00.zip", "daily-2024-06-01_00-00-00.zip", "daily-bad.zip"],
        ∀ e2 ∈ ["daily-2024-01-01_00-00-00.zip", "daily-2024-06-01_00-00-00.zip", "daily-bad.zip"],
        e1 ≠ e2 → parsedOf "daily-" e1 = none ∨ parsedOf "daily-" e1 ≠ parsedOf "daily-" e2) ∧
      (∃ e ∈ ["daily-2024-01-01_00-00-00.zip", "daily-2024-06-01_00-00-00.zip", "daily-bad.zip"],
        (parsedOf "daily-" e).isSome = true)) ∧
    (∃ e ∈ ["daily-2024-01-01_00-00-00.zip", "daily-2024-06-01_00-00-00.zip", "daily-bad.zip"],
      ∃ t, parsedOf "daily-" e = some t ∧
        getMostRecentBackup "/b" "daily-"
            ["daily-2024-01-01_00-00-00.zip", "daily-2024-06-01_00-00-00.zip", "daily-bad.zip"]
            "" none
          = (true, "/b" ++ "/" ++ e, some t) ∧
        (∀ x ∈ ["daily-2024-01-01_00-00-00.zip", "daily-2024-06-01_00-00-00.zip", "daily-bad.zip"],
          ∀ tx, parsedOf "daily-" x = some tx → tx.key ≤ t.key) ∧
        (∀ x ∈ ["daily-2024-01-01_00-00-00.zip", "daily-2024-06-01_00-00-00.zip", "daily-bad.zip"],
          ∀ tx, parsedOf "daily-" x = some tx → x ≠ e → tx.key < t.key)) :=
  ⟨⟨by decide, by decide⟩,
    (C7_scanner_selection "/b" "daily-"
      ["daily-2024-01-01_00-00-00.zip", "daily-2024-06-01_00-00-00.zip", "daily-bad.zip"]
      "" none).1 (by decide) (by decide)⟩

/-- C10: whenever no directory entry passes the prefix glob, the anchored
timestamp pattern and the datetime parse, `getMostRecentBackup` returns
`false` and leaves both out-parameters exactly as they were at the call. -/
theorem C10_scanner_frame (dirPath format : String) (entries : List String)
    (outName : String) (outTime : Option DateTime)
    (h : ∀ e ∈ entries, parsedOf format e = none) :
    getMostRecentBackup dirPath format entries outName outTime = (false, outName, outTime) := by
  simp only [getMostRecentBackup]
  rw [scan_foldl_id dirPath format _ _
    (fun x hx => h x (List.mem_of_mem_filter hx))]
  rfl

/-- C10 witness: a directory whose entries all fail (wrong prefix,
unparsable timestamp, or not a zip); the out-parameters keep their
incoming values. -/
theorem C10_scanner_frame_witness :
    (∀ e ∈ ["backup-daily-2024-01-01_00-00-00.zip", "daily-notadate.zip", "readme.txt"],
        parsedOf "daily-" e = none) ∧
    getMostRecentBackup "/b" "daily-"
        ["backup-daily-2024-01-01_00-00-00.zip", "daily-notadate.zip", "readme.txt"]
        "keep" (some ⟨2020, 1, 1, 0, 0, 0⟩)
      = (false, "keep", some ⟨2020, 1, 1, 0, 0, 0⟩) :=
  ⟨by decide,
    C10_scanner_frame "/b" "daily-"
      ["backup-daily-2024-01-01_00-00-00.zip", "daily-notadate.zip", "readme.txt"]
      "keep" (some ⟨2020, 1, 1, 0, 0, 0⟩) (by decide)⟩

/-- C8: for every configured rule, the stored `extensionFormat` is the
configured Name with every space replaced by an underscore, lowercased,
with a trailing "-" separator appended — a function of the Name only; the
configured `format` field has no influence on it. -/
theorem C8_format_derivation (cfg : RuleConfig) (dirPath : String) (existing : List String)
    (f : String) :
    (parseRule cfg dirPath existing).extensionFormat
        = strToLower (replaceSpaces cfg.nameCfg) ++ "-" ∧
    (parseRule { cfg with formatCfg := f } dirPath existing).extensionFormat
        = (parseRule cfg dirPath existing).extensionFormat :=
  ⟨rfl, rfl⟩

/-- C9: `name.replace(" ", "_")` mutates the name in place before the rule
is constructed, so the stored rule name is the configured Name with each
space replaced by an underscore (case preserved) — and hence differs from
the configured Name whenever it contains a space. -/
theorem C9_name_mutated (cfg : RuleConfig) (dirPath : String) (existing : List String)
    (h : ' ' ∈ cfg.nameCfg.data) :
    (parseRule cfg dirPath existing).name = replaceSpaces cfg.nameCfg ∧
    (parseRule cfg dirPath existing).name ≠ cfg.nameCfg := by
  refine ⟨rfl, ?_⟩
  intro heq
  have heq2 : replaceSpaces cfg.nameCfg = cfg.nameCfg := heq
  have hdata : cfg.nameCfg.data.map (fun c => if c = ' ' then '_' else c) = cfg.nameCfg.data :=
    congrArg String.data heq2
  have hfix := map_eq_self_fixes (fun c => if c = ' ' then '_' else c) cfg.nameCfg.data hdata ' ' h
  simp at hfix

/-- C9 witness: the configured Name "My Backup" is stored as "My_Backup". -/
theorem C9_name_mutated_witness :
    ' ' ∈ ("My Backup" : String).data ∧
    ((parseRule ⟨"My Backup", "fmt", 10, 2⟩ "/b" []).name = replaceSpaces "My Backup" ∧
      (parseRule ⟨"My Backup", "fmt", 10, 2⟩ "/b" []).name ≠ "My Backup") :=
  ⟨by decide, C9_name_mutated ⟨"My Backup", "fmt", 10, 2⟩ "/b" [] (by decide)⟩

/-- C6 (amended; see the counterexample for the dropped clause): when the
crash-marker file cannot be created the whole persist cycle is skipped —
the Backup Executor is not invoked, no rule state changes, no file
changes, and no event (in particular no log) is produced; when the marker
is created, the executor runs once over all rules and the marker is
removed after it returns, as the last event of the cycle, never between
rules. -/
theorem C6_persist_guard (dirPath : String) (handlers : List String) (openOk : String → Bool)
    (nowSeconds : Int) (clock : List String) (rules : List BackupRule) (dir : List String) :
    persist dirPath handlers openOk false nowSeconds clock rules dir = ⟨rules, dir, [], []⟩ ∧
    persist dirPath handlers openOk true nowSeconds clock rules dir =
      (let res := backup dirPath handlers openOk nowSeconds clock rules
          (insertFile "running.lock" dir)
       ⟨res.rules, res.dir.filter (fun f => decide (f ≠ "running.lock")), res.created,
        Event.lockCreated :: (res.events ++ [Event.lockRemoved])⟩) :=
  ⟨rfl, rfl⟩

/-- C6 counterexample: the claim also asserts that an error is logged when
the marker cannot be created, but the C++ `persist` body is a single
`if (lockFile.is_open())` with no else branch — nothing is logged on that
path.  At this concrete due-to-fire input the failed cycle produces no
events whatsoever (the event trace, which records every observable action
including the open-failure log of the executor, is empty). -/
theorem C6_no_error_logged :
    persist "/b" ["h"] (fun _ => true) false 86401 ["2024-01-02_00-00-01"]
        [⟨"Daily", 86400, "daily-", 3, 0⟩] []
      = ⟨[⟨"Daily", 86400, "daily-", 3, 0⟩], [], [], []⟩ := by
  rfl

/-- C1: the Backup Executor names archives
`"backup-" ++ extensionFormat ++ timestamp ++ ".zip"`, but the Scanner
filters with the glob `extensionFormat ++ "*.zip"` and anchors its regular
expression at `extensionFormat`, both without the leading `"backup-"` —
so an archive the executor just created (here the June file) is never
found by a scan with the rule's own format, refuting the round-trip
claim: the scan over exactly the two files of the scenario returns
"no archive found". -/
theorem C1_roundtrip_fails :
    (backup "/b" ["h"] (fun _ => true) 86401 ["2024-06-01_00-00-00"]
        [⟨"Daily", 86400, "daily-", 3, 0⟩]
        ["backup-daily-2024-01-01_00-00-00.zip"]).dir
      = ["backup-daily-2024-01-01_00-00-00.zip", "backup-daily-2024-06-01_00-00-00.zip"] ∧
    getMostRecentBackup "/b" "daily-"
        ["backup-daily-2024-01-01_00-00-00.zip", "backup-daily-2024-06-01_00-00-00.zip"]
        "" none
      = (false, "", none) := by
  constructor
  · rfl
  · rfl

/-- C2: the first fire does produce exactly the single archive
`backup-daily-<timestamp>.zip`, but after four consecutive fire cycles all
four archives remain: `removeOldBackupVersions` globs
`extensionFormat ++ "*.zip"` (`"daily-*.zip"`), which never matches the
`"backup-daily-..."` names the executor creates, so retention never
deletes anything and the claimed final count of 3 is refuted (the
directory holds 4 files). -/
theorem C2_four_cycles_keep_four :
    (parseRule ⟨"Daily", "", 86400, 3⟩ "/b" [] = ⟨"Daily", 86400, "daily-", 3, 0⟩) ∧
    (let r0 : BackupRule := ⟨"Daily", 86400, "daily-", 3, 0⟩
     let c1 := backup "/b" ["h"] (fun _ => true) 86401 ["2024-01-02_00-00-01"] [r0] []
     let c2 := backup "/b" ["h"] (fun _ => true) 172802 ["2024-01-03_00-00-02"] c1.rules c1.dir
     let c3 := backup "/b" ["h"] (fun _ => true) 259203 ["2024-01-04_00-00-03"] c2.rules c2.dir
     let c4 := backup "/b" ["h"] (fun _ => true) 345604 ["2024-01-05_00-00-04"] c3.rules c3.dir
     c1.dir = ["backup-daily-2024-01-02_00-00-01.zip"] ∧
     c4.dir = ["backup-daily-2024-01-02_00-00-01.zip", "backup-daily-2024-01-03_00-00-02.zip",
               "backup-daily-2024-01-04_00-00-03.zip", "backup-daily-2024-01-05_00-00-04.zip"]) := by
  refine ⟨rfl, ?_⟩
  exact ⟨rfl, rfl⟩

theorem backup_rules_map (dirPath : String) (handlers : List String) (openOk : String → Bool)
    (nowSeconds : Int) :
    ∀ (rules : List BackupRule) (clock : List String) (dir : List String),
      (backup dirPath handlers openOk nowSeconds clock rules dir).rules
        = rules.map (fun r =>
            if nowSeconds - r.lastBackupSeconds > r.intervalSeconds then
              { r with lastBackupSeconds := nowSeconds } else r) := by
  intro rules
  induction rules with
  | nil => intro clock dir; rfl
  | cons r rest ih =>
    intro clock dir
    rw [List.map_cons]
    by_cases hc : nowSeconds - r.lastBackupSeconds > r.intervalSeconds
    · simp only [backup, if_pos hc]
      rw [ih]
    · simp only [backup, if_neg hc]
      rw [ih]

theorem backup_created_iff (dirPath : String) (handlers : List String) (openOk : String → Bool)
    (nowSeconds : Int) (hopen : ∀ f, openOk f = true) :
    ∀ (rules : List BackupRule) (clock : List String) (dir : List String),
      List.Forall₂ (fun r c => Option.isSome c
          = decide (nowSeconds - r.lastBackupSeconds > r.intervalSeconds))
        rules (backup dirPath handlers openOk nowSeconds clock rules dir).created := by
  intro rules
  induction rules with
  | nil => intro clock dir; exact List.Forall₂.nil
  | cons r rest ih =>
    intro clock dir
    by_cases hc : nowSeconds - r.lastBackupSeconds > r.intervalSeconds
    · simp only [backup, if_pos hc]
      refine List.Forall₂.cons ?_ (ih _ _)
      rw [hopen]
      simp [hc]
    · simp only [backup, if_neg hc]
      refine List.Forall₂.cons ?_ (ih _ _)
      simp [hc]

/-- C3: in one backup cycle a rule fires iff
`nowSeconds - lastBackupSeconds > intervalSeconds` (strict); every firing
rule's `lastBackupSeconds` is set to the cycle's `nowSeconds`, every other
rule is left unchanged; and (with archive opening succeeding) an archive
file is created for a rule iff that rule fires — `created` pairs each rule
with `some` archive exactly when its condition holds. -/
theorem C3_fire_iff (dirPath : String) (handlers : List String) (openOk : String → Bool)
    (nowSeconds : Int) (clock : List String) (rules : List BackupRule) (dir : List String)
    (hopen : ∀ f, openOk f = true) :
    (backup dirPath handlers openOk nowSeconds clock rules dir).rules
      = rules.map (fun r =>
          if nowSeconds - r.lastBackupSeconds > r.intervalSeconds then
            { r with lastBackupSeconds := nowSeconds } else r) ∧
    List.Forall₂ (fun r c => Option.isSome c
        = decide (nowSeconds - r.lastBackupSeconds > r.intervalSeconds))
      rules (backup dirPath handlers openOk nowSeconds clock rules dir).created :=
  ⟨backup_rules_map dirPath handlers openOk nowSeconds rules clock dir,
   backup_created_iff dirPath handlers openOk nowSeconds hopen rules clock dir⟩

/-- C3 witness: a cycle over two rules of which only the first is due. -/
theorem C3_fire_iff_witness :
    (∀ f : String, (fun _ : String => true) f = true) ∧
    ((backup "/b" ["h"] (fun _ => true) 100 ["2024-01-01_00-00-40"]
        [⟨"A", 50, "a-", 1, 10⟩, ⟨"B", 500, "b-", 1, 10⟩] []).rules
      = ([⟨"A", 50, "a-", 1, 10⟩, ⟨"B", 500, "b-", 1, 10⟩] : List BackupRule).map (fun r =>
          if (100 : Int) - r.lastBackupSeconds > r.intervalSeconds then
            { r with lastBackupSeconds := 100 } else r) ∧
    List.Forall₂ (fun r c => Option.isSome c
        = decide ((100 : Int) - r.lastBackupSeconds > r.intervalSeconds))
      ([⟨"A", 50, "a-", 1, 10⟩, ⟨"B", 500, "b-", 1, 10⟩] : List BackupRule)
      (backup "/b" ["h"] (fun _ => true) 100 ["2024-01-01_00-00-40"]
        [⟨"A", 50, "a-", 1, 10⟩, ⟨"B", 500, "b-", 1, 10⟩] []).created) :=
  ⟨fun _ => rfl,
   C3_fire_iff "/b" ["h"] (fun _ => true) 100 ["2024-01-01_00-00-40"]
     [⟨"A", 50, "a-", 1, 10⟩, ⟨"B", 500, "b-", 1, 10⟩] [] (fun _ => rfl)⟩

/-- C5: for a firing rule whose archive fails to open, every registered
handler's `createBackup` is still invoked, in registration order, against
the failed writer; `lastBackupSeconds` is still set to `nowSeconds`; and
retention still runs for the rule — the timestamp update and retention are
unconditional on open success (no archive file is created: `created`
is `[none]` and the directory only changes by the retention deletions). -/
theorem C5_open_failure (dirPath : String) (handlers : List String) (openOk : String → Bool)
    (nowSeconds : Int) (clock : List String) (rule : BackupRule) (dir : List String)
    (hfire : nowSeconds - rule.lastBackupSeconds > rule.intervalSeconds)
    (hopen : openOk ("backup-" ++ rule.extensionFormat ++ clock.headD "" ++ ".zip") = false) :
    backup dirPath handlers openOk nowSeconds clock [rule] dir
      = ⟨[{ rule with lastBackupSeconds := nowSeconds }],
         (removeOldBackupVersions { rule with lastBackupSeconds := nowSeconds } dir).1,
         [none],
         Event.openFailed
             (dirPath ++ "/" ++ ("backup-" ++ rule.extensionFormat ++ clock.headD "" ++ ".zip"))
           :: (handlers.map (fun h => Event.createBackupInvoked h
                 ⟨dirPath ++ "/" ++ ("backup-" ++ rule.extensionFormat ++ clock.headD "" ++ ".zip"),
                  false⟩)
               ++ (removeOldBackupVersions
                     { rule with lastBackupSeconds := nowSeconds } dir).2.map
                    Event.removedOldBackup)⟩ := by
  simp only [backup, if_pos hfire, hopen]
  simp

/-- C5 witness: one handler, an open that always fails, a due rule, and a
directory holding two older matching archives of which retention deletes
one. -/
theorem C5_open_failure_witness :
    ((100 : Int) - 0 > (⟨"Daily", 60, "daily-", 1, 0⟩ : BackupRule).intervalSeconds ∧
      (fun _ : String => false) ("backup-" ++ "daily-" ++
        (["2024-01-01_00-01-40"] : List String).headD "" ++ ".zip") = false) ∧
    backup "/b" ["h"] (fun _ => false) 100 ["2024-01-01_00-01-40"]
        [⟨"Daily", 60, "daily-", 1, 0⟩]
        ["daily-2024-01-01_00-00-00.zip", "daily-2024-01-01_00-00-30.zip"]
      = ⟨[{ (⟨"Daily", 60, "daily-", 1, 0⟩ : BackupRule) with lastBackupSeconds := 100 }],
         (removeOldBackupVersions
            { (⟨"Daily", 60, "daily-", 1, 0⟩ : BackupRule) with lastBackupSeconds := 100 }
            ["daily-2024-01-01_00-00-00.zip", "daily-2024-01-01_00-00-30.zip"]).1,
         [none],
         Event.openFailed ("/b" ++ "/" ++ ("backup-" ++ "daily-" ++
             (["2024-01-01_00-01-40"] : List String).headD "" ++ ".zip"))
           :: ((["h"] : List String).map (fun h => Event.createBackupInvoked h
                 ⟨"/b" ++ "/" ++ ("backup-" ++ "daily-" ++
                    (["2024-01-01_00-01-40"] : List String).headD "" ++ ".zip"), false⟩)
               ++ (removeOldBackupVersions
                     { (⟨"Daily", 60, "daily-", 1, 0⟩ : BackupRule) with lastBackupSeconds := 100 }
                     ["daily-2024-01-01_00-00-00.zip", "daily-2024-01-01_00-00-30.zip"]).2.map
                    Event.removedOldBackup)⟩ :=
  ⟨⟨by decide, rfl⟩,
   C5_open_failure "/b" ["h"] (fun _ => false) 100 ["2024-01-01_00-01-40"]
     ⟨"Daily", 60, "daily-", 1, 0⟩
     ["daily-2024-01-01_00-00-00.zip", "daily-2024-01-01_00-00-30.zip"]
     (by decide) rfl⟩

theorem sortByName_perm (l : List String) : (sortByName l).Perm l :=
  List.perm_insertionSort (fun a b => a ≤ b) l

theorem sortByName_sorted (l : List String) :
    (sortByName l).Pairwise (fun a b => a ≤ b) :=
  List.sorted_insertionSort (fun a b => a ≤ b) l

theorem filter_not_mem_take {α : Type} [DecidableEq α] (s d : List α) (k : Nat)
    (hd : d = s.take k) (hnd : s.Nodup) :
    s.filter (fun f => decide (f ∉ d)) = s.drop k := by
  have hdisj : (s.take k).Disjoint (s.drop k) := List.disjoint_take_drop hnd (le_refl k)
  conv =>
    lhs
    rw [← List.take_append_drop k s]
  rw [List.filter_append]
  have h1 : (s.take k).filter (fun f => decide (f ∉ d)) = [] := by
    rw [List.filter_eq_nil_iff]
    intro a ha
    simp only [decide_eq_true_eq, Decidable.not_not]
    rw [hd]
    exact ha
  have h2 : (s.drop k).filter (fun f => decide (f ∉ d)) = s.drop k := by
    rw [List.filter_eq_self]
    intro a ha
    simp only [decide_eq_true_eq]
    rw [hd]
    exact fun hat => hdisj hat ha
  rw [h1, h2, List.nil_append]

theorem retention_aux (p : String → Bool) (dir : List String) (k : Nat) (hnd : dir.Nodup)
    (hk : k ≤ (dir.filter p).length) :
    ((sortByName (dir.filter p)).take k).length = k ∧
    (∀ f ∈ (sortByName (dir.filter p)).take k, f ∈ dir ∧ p f = true) ∧
    (∀ f ∈ (sortByName (dir.filter p)).take k,
      ∀ g ∈ dir.filter (fun f => decide (f ∉ (sortByName (dir.filter p)).take k)),
        p g = true → f ≤ g) ∧
    ((dir.filter (fun f => decide (f ∉ (sortByName (dir.filter p)).take k))).filter p).length
        = (dir.filter p).length - k ∧
    (dir.filter (fun f => decide (f ∉ (sortByName (dir.filter p)).take k))).filter
        (fun f => !(p f))
      = dir.filter (fun f => !(p f)) := by
  have hperm : (sortByName (dir.filter p)).Perm (dir.filter p) := sortByName_perm _
  have hlen : (sortByName (dir.filter p)).length = (dir.filter p).length := hperm.length_eq
  have hsortnd : (sortByName (dir.filter p)).Nodup :=
    hperm.nodup_iff.mpr (List.Nodup.filter p hnd)
  have hmemdel : ∀ f ∈ (sortByName (dir.filter p)).take k, f ∈ dir ∧ p f = true := by
    intro f hf
    exact List.mem_filter.mp (hperm.mem_iff.mp (List.mem_of_mem_take hf))
  have hdisj : ((sortByName (dir.filter p)).take k).Disjoint
      ((sortByName (dir.filter p)).drop k) :=
    List.disjoint_take_drop hsortnd (le_refl k)
  refine ⟨?_, hmemdel, ?_, ?_, ?_⟩
  · rw [List.length_take]
    omega
  · -- deleted files are below every surviving matching file
    have hpw : (sortByName (dir.filter p)).Pairwise (fun a b => a ≤ b) := sortByName_sorted _
    rw [← List.take_append_drop k (sortByName (dir.filter p)), List.pairwise_append] at hpw
    intro f hf g hg hpg
    obtain ⟨hgdir, hgdec⟩ := List.mem_filter.mp hg
    have hgnotdel : g ∉ (sortByName (dir.filter p)).take k := by
      simpa using hgdec
    have hgsort : g ∈ sortByName (dir.filter p) :=
      hperm.mem_iff.mpr (List.mem_filter.mpr ⟨hgdir, hpg⟩)
    rw [← List.take_append_drop k (sortByName (dir.filter p)), List.mem_append] at hgsort
    rcases hgsort with hgt | hgd
    · exact absurd hgt hgnotdel
    · exact hpw.2.2 f hf g hgd
  · -- the surviving matching files are the dropped part of the sorted list
    have hcomm : (dir.filter (fun f => decide (f ∉ (sortByName (dir.filter p)).take k))).filter p
        = (dir.filter p).filter (fun f => decide (f ∉ (sortByName (dir.filter p)).take k)) :=
      List.filter_comm _ _ _
    have hpermf : ((dir.filter p).filter
          (fun f => decide (f ∉ (sortByName (dir.filter p)).take k))).Perm
        ((sortByName (dir.filter p)).filter
          (fun f => decide (f ∉ (sortByName (dir.filter p)).take k))) :=
      (List.Perm.filter _ hperm).symm
    have hsplit : (sortByName (dir.filter p)).filter
          (fun f => decide (f ∉ (sortByName (dir.filter p)).take k))
        = (sortByName (dir.filter p)).drop k :=
      filter_not_mem_take (sortByName (dir.filter p))
        ((sortByName (dir.filter p)).take k) k rfl hsortnd
    rw [hcomm, hpermf.length_eq, hsplit, List.length_drop]
    omega
  · -- non-matching files are untouched
    rw [List.filter_comm, List.filter_eq_self.mpr]
    intro a ha
    obtain ⟨hadir, hanp⟩ := List.mem_filter.mp ha
    simp only [decide_eq_true_eq]
    intro hadel
    have := (hmemdel a hadel).2
    simp [this] at hanp

/-- C4: a retention run for a rule with `maxVersions = N > 0` over a
directory holding `M` files that match the rule's
`extensionFormat ++ "*.zip"` glob deletes exactly `max(0, M - N)` files;
every deleted file is a matching file of the directory and is
lexicographically (= chronologically) no greater than every matching file
that survives; exactly `min M N` matching files remain; and files not
matching the glob are untouched.  A rule with `maxVersions ≤ 0` deletes
nothing. -/
theorem C4_retention (rule : BackupRule) (dir : List String) (hnd : dir.Nodup) :
    (rule.maxBackupVersions ≤ 0 → removeOldBackupVersions rule dir = (dir, [])) ∧
    (0 < rule.maxBackupVersions →
      (removeOldBackupVersions rule dir).2.length
          = (dir.filter (fun f => matchesGlob rule.extensionFormat f)).length
              - rule.maxBackupVersions.toNat ∧
      (∀ f ∈ (removeOldBackupVersions rule dir).2,
          f ∈ dir ∧ matchesGlob rule.extensionFormat f = true) ∧
      (∀ f ∈ (removeOldBackupVersions rule dir).2,
          ∀ g ∈ (removeOldBackupVersions rule dir).1,
            matchesGlob rule.extensionFormat g = true → f ≤ g) ∧
      ((removeOldBackupVersions rule dir).1.filter
            (fun f => matchesGlob rule.extensionFormat f)).length
          = min (dir.filter (fun f => matchesGlob rule.extensionFormat f)).length
              rule.maxBackupVersions.toNat ∧
      (removeOldBackupVersions rule dir).1.filter
            (fun f => !(matchesGlob rule.extensionFormat f))
          = dir.filter (fun f => !(matchesGlob rule.extensionFormat f))) := by
  constructor
  · intro hN
    simp only [removeOldBackupVersions, if_neg (by omega : ¬ 0 < rule.maxBackupVersions)]
  · intro hN
    have hres : removeOldBackupVersions rule dir
        = (dir.filter (fun f => decide (f ∉
              (sortByName (dir.filter (fun f => matchesGlob rule.extensionFormat f))).take
                (((dir.filter (fun f => matchesGlob rule.extensionFormat f)).length : Int)
                  - rule.maxBackupVersions).toNat)),
           (sortByName (dir.filter (fun f => matchesGlob rule.extensionFormat f))).take
             (((dir.filter (fun f => matchesGlob rule.extensionFormat f)).length : Int)
               - rule.maxBackupVersions).toNat) := by
      simp only [removeOldBackupVersions, if_pos hN, sortByName_perm,
        (sortByName_perm _).length_eq]
    have haux := retention_aux (fun f => matchesGlob rule.extensionFormat f) dir
      (((dir.filter (fun f => matchesGlob rule.extensionFormat f)).length : Int)
        - rule.maxBackupVersions).toNat hnd (by omega)
    obtain ⟨h1, h2, h3, h4, h5⟩ := haux
    rw [hres]
    refine ⟨?_, h2, h3, ?_, h5⟩
    · rw [h1]
      omega
    · rw [h4]
      omega

/-- C4 witness: a rule keeping 2 versions over a directory with three
matching archives and one unrelated file. -/
theorem C4_retention_witness :
    (["daily-2024-01-01_00-00-00.zip", "daily-2024-03-01_00-00-00.zip",
      "daily-2024-02-01_00-00-00.zip", "other.txt"] : List String).Nodup ∧
    ((0 : Int) < 2 ∧
      ((removeOldBackupVersions ⟨"D", 1, "daily-", 2, 0⟩
          ["daily-2024-01-01_00-00-00.zip", "daily-2024-03-01_00-00-00.zip",
           "daily-2024-02-01_00-00-00.zip", "other.txt"]).2.length
        = ((["daily-2024-01-01_00-00-00.zip", "daily-2024-03-01_00-00-00.zip",
             "daily-2024-02-01_00-00-00.zip", "other.txt"] : List String).filter
              (fun f => matchesGlob "daily-" f)).length - (2 : Int).toNat ∧
      (∀ f ∈ (removeOldBackupVersions ⟨"D", 1, "daily-", 2, 0⟩
          ["daily-2024-01-01_00-00-00.zip", "daily-2024-03-01_00-00-00.zip",
           "daily-2024-02-01_00-00-00.zip", "other.txt"]).2,
          f ∈ ["daily-2024-01-01_00-00-00.zip", "daily-2024-03-01_00-00-00.zip",
               "daily-2024-02-01_00-00-00.zip", "other.txt"] ∧
            matchesGlob "daily-" f = true) ∧
      (∀ f ∈ (removeOldBackupVersions ⟨"D", 1, "daily-", 2, 0⟩
          ["daily-2024-01-01_00-00-00.zip", "daily-2024-03-01_00-00-00.zip",
           "daily-2024-02-01_00-00-00.zip", "other.txt"]).2,
          ∀ g ∈ (removeOldBackupVersions ⟨"D", 1, "daily-", 2, 0⟩
              ["daily-2024-01-01_00-00-00.zip", "daily-2024-03-01_00-00-00.zip",
               "daily-2024-02-01_00-00-00.zip", "other.txt"]).1,
            matchesGlob "daily-" g = true → f ≤ g) ∧
      ((removeOldBackupVersions ⟨"D", 1, "daily-", 2, 0⟩
          ["daily-2024-01-01_00-00-00.zip", "daily-2024-03-01_00-00-00.zip",
           "daily-2024-02-01_00-00-00.zip", "other.txt"]).1.filter
            (fun f => matchesGlob "daily-" f)).length
        = min ((["daily-2024-01-01_00-00-00.zip", "daily-2024-03-01_00-00-00.zip",
                 "daily-2024-02-01_00-00-00.zip", "other.txt"] : List String).filter
                  (fun f => matchesGlob "daily-" f)).length (2 : Int).toNat ∧
      (removeOldBackupVersions ⟨"D", 1, "daily-", 2, 0⟩
          ["daily-2024-01-01_00-00-00.zip", "daily-2024-03-01_00-00-00.zip",
           "daily-2024-02-01_00-00-00.zip", "other.txt"]).1.filter
            (fun f => !(matchesGlob "daily-" f))
        = (["daily-2024-01-01_00-00-00.zip", "daily-2024-03-01_00-00-00.zip",
            "daily-2024-02-01_00-00-00.zip", "other.txt"] : List String).filter
            (fun f => !(matchesGlob "daily-" f)))) :=
  ⟨by decide, by decide,
    (C4_retention ⟨"D", 1, "daily-", 2, 0⟩
      ["daily-2024-01-01_00-00-00.zip", "daily-2024-03-01_00-00-00.zip",
       "daily-2024-02-01_00-00-00.zip", "other.txt"] (by decide)).2 (by decide)⟩

end DomainBackup
